import Mathlib

/-!
Verification of the Financial Buddy app (src/app.py).

The file shallowly embeds the two non-trivial components of the source:

* the SIP projection calculator (tab 1, lines 32-61): the incremental
  compounding loop over the months, the displayed closed-form future-value
  formula, and the derived summary quantities;
* the quiz session engine (tab 3, lines 130-255): the per-visitor session
  state `(quiz_index, correct, answers)`, the Submit Answer handler, the
  Restart handler, the score and badge computations, and the static
  question bank;

together with the budget allocation table of tab 2 (lines 72-97).

Monetary quantities and rates are modelled over `ℚ`; the Python source
computes over floats, and every claim below concerns the exact arithmetic
the formulas denote.
-/

namespace FinancialBuddy

/-! ## SIP projection calculator (src/app.py lines 32-61) -/

/-- The mutable state of the SIP loop of lines 39-46: the running `wealth`
accumulator and the two progress lists appended to on each iteration. -/
structure SipState where
  wealth : ℚ
  total_wealth_progress : List ℚ
  invested_progress : List ℚ
  deriving Repr, DecidableEq

/-- One iteration of the loop body of lines 43-46:
`wealth += monthly_sip * ((1 + monthly_return) ** (months - i))`, then the
two appends. -/
def sipStep (monthly_sip monthly_return : ℚ) (months : ℕ)
    (st : SipState) (i : ℕ) : SipState :=
  let w := st.wealth + monthly_sip * (1 + monthly_return) ^ (months - i)
  ⟨w, st.total_wealth_progress ++ [w],
      st.invested_progress ++ [monthly_sip * (i + 1)]⟩

/-- The whole loop `for i in range(months)` of lines 43-46, started from
`wealth = 0` and empty progress lists (lines 39-41). -/
def sipRun (monthly_sip monthly_return : ℚ) (months : ℕ) : SipState :=
  (List.range months).foldl (sipStep monthly_sip monthly_return months) ⟨0, [], []⟩

/-- `invested_amount = monthly_sip * months` (line 38). -/
def invested_amount (monthly_sip : ℚ) (months : ℕ) : ℚ :=
  monthly_sip * months

/-- The gain reported on line 48: final wealth minus invested amount. -/
def gain (monthly_sip monthly_return : ℚ) (months : ℕ) : ℚ :=
  (sipRun monthly_sip monthly_return months).wealth - invested_amount monthly_sip months

/-- The lump-decay partial sum: wealth after the first `m` of the `months`
loop iterations, written in closed summation form,
`∑ i in range m, P * (1+r)^(months - i)`.  This is the summation the spec
gives for lump-decay mode. -/
def lumpWealth (P r : ℚ) (months m : ℕ) : ℚ :=
  ∑ i in Finset.range m, P * (1 + r) ^ (months - i)

/-- The future-value formula the app displays on lines 21-29:
`FV = P × [(1 + r)^n - 1] × (1 + r) / r` — the annuity-due closed form,
here taken at an arbitrary month count `n`. -/
def annuityDueFV (P r : ℚ) (n : ℕ) : ℚ :=
  P * ((1 + r) ^ n - 1) * (1 + r) / r

/-- Characterization of the SIP loop after `k` iterations: the accumulator
holds the lump-decay partial sum and the two lists hold its prefixes,
respectively the invested amounts `P * (j+1)`. -/
lemma sipRun_range (P r : ℚ) (months : ℕ) : ∀ k : ℕ,
    (List.range k).foldl (sipStep P r months) ⟨0, [], []⟩ =
      ⟨lumpWealth P r months k,
       (List.range k).map (fun j => lumpWealth P r months (j + 1)),
       (List.range k).map (fun j : ℕ => P * ((j : ℚ) + 1))⟩ := by
  intro k
  induction k with
  | zero => simp [lumpWealth]
  | succ n ih =>
      rw [List.range_succ, List.foldl_append, ih]
      simp only [List.foldl_cons, List.foldl_nil, sipStep, List.map_append]
      refine SipState.mk.injEq .. ▸ ?_
      refine ⟨?_, ?_, ?_⟩
      · simp [lumpWealth, Finset.sum_range_succ]
      · simp [lumpWealth, Finset.sum_range_succ]
      · simp

/-- The two progress lists have length `months` and the fields of the final
state are the closed forms. -/
lemma sipRun_eq (P r : ℚ) (months : ℕ) :
    sipRun P r months =
      ⟨lumpWealth P r months months,
       (List.range months).map (fun j => lumpWealth P r months (j + 1)),
       (List.range months).map (fun j : ℕ => P * ((j : ℚ) + 1))⟩ :=
  sipRun_range P r months months

/-- Recurrence for the full lump-decay sum when one more month is added:
each existing term gains one factor `(1+r)` and a fresh term `P * (1+r)`
appears. -/
lemma lumpWealth_succ (P r : ℚ) (n : ℕ) :
    lumpWealth P r (n + 1) (n + 1) = (1 + r) * (lumpWealth P r n n + P) := by
  unfold lumpWealth
  rw [Finset.sum_range_succ]
  have h : ∀ i ∈ Finset.range n,
      P * (1 + r) ^ (n + 1 - i) = (1 + r) * (P * (1 + r) ^ (n - i)) := by
    intro i hi
    rw [Finset.mem_range] at hi
    have hni : n + 1 - i = (n - i) + 1 := by omega
    rw [hni, pow_succ]
    ring
  rw [Finset.sum_congr rfl h, ← Finset.mul_sum]
  have hnn : n + 1 - n = 1 := by omega
  rw [hnn]
  ring

/-- Multiplying the full lump-decay sum by the rate gives the numerator of
the displayed annuity-due formula: the loop total is the closed geometric
series. -/
lemma lumpWealth_mul_rate (P r : ℚ) (n : ℕ) :
    lumpWealth P r n n * r = P * ((1 + r) ^ n - 1) * (1 + r) := by
  induction n with
  | zero => simp [lumpWealth]
  | succ n ih =>
      rw [lumpWealth_succ]
      have hsplit : (1 + r) * (lumpWealth P r n n + P) * r
          = (1 + r) * (lumpWealth P r n n * r) + (1 + r) * (P * r) := by ring
      rw [hsplit, ih, pow_succ]
      ring

/-- The lump-decay partial sums are monotone in the number of months
summed, for non-negative contribution and rate. -/
lemma lumpWealth_mono (P r : ℚ) (hP : 0 ≤ P) (hr : 0 ≤ r) (months : ℕ)
    {a b : ℕ} (h : a ≤ b) :
    lumpWealth P r months a ≤ lumpWealth P r months b := by
  unfold lumpWealth
  refine Finset.sum_le_sum_of_subset_of_nonneg (Finset.range_subset.mpr h) ?_
  intro i _ _
  exact mul_nonneg hP (pow_nonneg (by linarith) _)

/-- C1. In lump-decay mode, for positive monthly contribution `P`, positive
`years` with `months = years * 12`, and monthly rate `r`, the series
produced by the loop has wealth at month index `m` (1-based, `1 ≤ m ≤
months`) equal to `∑ i in range m, P * (1+r)^(months - i)` and invested
value at month index `m` equal to `P * m`. -/
theorem sip_lump_decay_series (P r : ℚ) (years m : ℕ)
    (hP : 0 < P) (hy : 0 < years) (h1 : 1 ≤ m) (h2 : m ≤ years * 12) :
    (sipRun P r (years * 12)).total_wealth_progress[m - 1]? =
        some (lumpWealth P r (years * 12) m) ∧
    (sipRun P r (years * 12)).invested_progress[m - 1]? = some (P * m) := by
  obtain ⟨j, rfl⟩ : ∃ j, m = j + 1 := ⟨m - 1, by omega⟩
  have hj : j < years * 12 := by omega
  rw [sipRun_eq]
  constructor
  · show ((List.range (years * 12)).map _)[j + 1 - 1]? = _
    simp only [Nat.add_sub_cancel, List.getElem?_map, List.getElem?_range hj,
      Option.map_some']
  · show ((List.range (years * 12)).map _)[j + 1 - 1]? = _
    simp only [Nat.add_sub_cancel, List.getElem?_map, List.getElem?_range hj,
      Option.map_some']
    congr 1
    push_cast
    ring

/-- Closed-input instantiation of `sip_lump_decay_series` at
`P = 500`, `r = 1/80` (the source's `0.15 / 12`), one year, month 5. -/
theorem sip_lump_decay_series_witness :
    (sipRun 500 (1/80) (1 * 12)).total_wealth_progress[5 - 1]? =
        some (lumpWealth 500 (1/80) (1 * 12) 5) ∧
    (sipRun 500 (1/80) (1 * 12)).invested_progress[5 - 1]? =
        some ((500 : ℚ) * ((5 : ℕ) : ℚ)) :=
  sip_lump_decay_series 500 (1/80) 1 5 (by norm_num) (by norm_num)
    (by norm_num) (by norm_num)

/-- C4. The annuity-due closed form and the lump-decay incremental series
are not numerically equivalent: at `P = 1`, `r = 1`, one year, the series
value at month index 1 is `2^12 = 4096`, while the annuity-due formula
gives `2`. -/
theorem annuity_due_ne_lump_decay :
    ∃ (P r : ℚ) (years m : ℕ), 0 < P ∧ 0 < r ∧ 0 < years ∧ 1 ≤ m ∧
      m ≤ years * 12 ∧
      (sipRun P r (years * 12)).total_wealth_progress[m - 1]? ≠
        some (annuityDueFV P r m) := by
  refine ⟨1, 1, 1, 1, by norm_num, by norm_num, by norm_num, le_refl 1,
    by norm_num, ?_⟩
  rw [sipRun_eq]
  show ((List.range (1 * 12)).map _)[1 - 1]? ≠ _
  rw [show (1:ℕ) * 12 = 12 from rfl]
  rw [List.getElem?_map, List.getElem?_range (by norm_num : (1:ℕ) - 1 < 12)]
  simp only [Option.map_some']
  intro hcontra
  have heq : lumpWealth 1 1 12 (1 - 1 + 1) = annuityDueFV 1 1 1 :=
    Option.some.inj hcontra
  rw [lumpWealth, annuityDueFV] at heq
  norm_num [Finset.sum_range_succ] at heq

/-- C5. The final wealth of the incremental loop equals the displayed
closed-form annuity-due future value `P * ((1+r)^n - 1) * (1+r) / r`
exactly, for every positive contribution, month count `n ≥ 1` and positive
monthly rate. -/
theorem sip_final_wealth_eq_formula (P r : ℚ) (n : ℕ)
    (hP : 0 < P) (hn : 1 ≤ n) (hr : 0 < r) :
    (sipRun P r n).wealth = annuityDueFV P r n := by
  rw [sipRun_eq]
  show lumpWealth P r n n = annuityDueFV P r n
  rw [annuityDueFV, eq_div_iff (ne_of_gt hr)]
  exact lumpWealth_mul_rate P r n

/-- Closed-input instantiation of `sip_final_wealth_eq_formula` at
`P = 500`, `r = 1/80`, `n = 12`. -/
theorem sip_final_wealth_eq_formula_witness :
    (sipRun 500 (1/80) 12).wealth = annuityDueFV 500 (1/80) 12 :=
  sip_final_wealth_eq_formula 500 (1/80) 12 (by norm_num) (by norm_num)
    (by norm_num)

/-- C6. For positive contribution and positive monthly rate, the final
wealth strictly exceeds the invested amount: the reported gain is strictly
positive. -/
theorem sip_gain_positive (P r : ℚ) (months : ℕ)
    (hP : 0 < P) (hr : 0 < r) (hm : 1 ≤ months) :
    invested_amount P months < (sipRun P r months).wealth := by
  rw [sipRun_eq]
  show invested_amount P months < lumpWealth P r months months
  have hterms : ∀ i ∈ Finset.range months,
      P * 1 < P * (1 + r) ^ (months - i) := by
    intro i hi
    rw [Finset.mem_range] at hi
    have hx : (1:ℚ) < 1 + r := by linarith
    have hpow : (1:ℚ) < (1 + r) ^ (months - i) :=
      one_lt_pow₀ hx (by omega)
    exact (mul_lt_mul_left hP).mpr hpow
  have hlt := Finset.sum_lt_sum_of_nonempty
    (Finset.nonempty_range_iff.mpr (by omega)) hterms
  have hconst : ∑ _i in Finset.range months, P * 1 = invested_amount P months := by
    rw [Finset.sum_const, Finset.card_range, invested_amount, nsmul_eq_mul]
    ring
  rw [hconst] at hlt
  exact hlt

/-- Closed-input instantiation of `sip_gain_positive` at `P = 500`,
`r = 1/80`, `months = 12`. -/
theorem sip_gain_positive_witness :
    invested_amount 500 12 < (sipRun 500 (1/80) 12).wealth :=
  sip_gain_positive 500 (1/80) 12 (by norm_num) (by norm_num) (by norm_num)

/-- C7. For every valid input (positive contribution, positive rate), the
series has length exactly `months` in both components, the invested value
at month index `m` is `P * m` (hence non-decreasing), and both progress
lists are non-decreasing. -/
theorem sip_series_invariants (P r : ℚ) (months : ℕ)
    (hP : 0 < P) (hr : 0 < r) :
    (sipRun P r months).total_wealth_progress.length = months ∧
    (sipRun P r months).invested_progress.length = months ∧
    (∀ m, 1 ≤ m → m ≤ months →
      (sipRun P r months).invested_progress[m - 1]? = some (P * m)) ∧
    List.Sorted (· ≤ ·) (sipRun P r months).invested_progress ∧
    List.Sorted (· ≤ ·) (sipRun P r months).total_wealth_progress := by
  rw [sipRun_eq]
  refine ⟨by simp, by simp, ?_, ?_, ?_⟩
  · intro m h1 h2
    obtain ⟨j, rfl⟩ : ∃ j, m = j + 1 := ⟨m - 1, by omega⟩
    have hj : j < months := by omega
    show ((List.range months).map _)[j + 1 - 1]? = _
    simp only [Nat.add_sub_cancel, List.getElem?_map, List.getElem?_range hj,
      Option.map_some']
    congr 1
    push_cast
    ring
  · show List.Sorted (· ≤ ·) ((List.range months).map _)
    rw [List.Sorted, List.pairwise_map]
    refine (List.pairwise_lt_range months).imp ?_
    intro a b hab
    have hc : ((a : ℚ) + 1) ≤ ((b : ℚ) + 1) := by
      have : (a : ℚ) ≤ b := by exact_mod_cast Nat.le_of_lt hab
      linarith
    exact mul_le_mul_of_nonneg_left hc (le_of_lt hP)
  · show List.Sorted (· ≤ ·) ((List.range months).map _)
    rw [List.Sorted, List.pairwise_map]
    refine (List.pairwise_lt_range months).imp ?_
    intro a b hab
    exact lumpWealth_mono P r (le_of_lt hP) (le_of_lt hr) months
      (by omega : a + 1 ≤ b + 1)

/-- Closed-input instantiation of `sip_series_invariants` at `P = 500`,
`r = 1/80`, `months = 3`. -/
theorem sip_series_invariants_witness :
    (sipRun 500 (1/80) 3).total_wealth_progress.length = 3 ∧
    (sipRun 500 (1/80) 3).invested_progress.length = 3 ∧
    (∀ m : ℕ, 1 ≤ m → m ≤ 3 →
      (sipRun 500 (1/80) 3).invested_progress[m - 1]? = some (500 * (m : ℚ))) ∧
    List.Sorted (· ≤ ·) (sipRun 500 (1/80) 3).invested_progress ∧
    List.Sorted (· ≤ ·) (sipRun 500 (1/80) 3).total_wealth_progress :=
  sip_series_invariants 500 (1/80) 3 (by norm_num) (by norm_num)

/-! ## Budget allocator (src/app.py lines 66-126) -/

/-- The 50/30/20 template of lines 72-77: an ordered table of category
names and amounts, each a fixed fraction of the income. -/
def fiftyThirtyTwenty (monthly_income : ℚ) : List (String × ℚ) :=
  [("Needs (50%)", monthly_income * 0.50),
   ("Wants (30%)", monthly_income * 0.30),
   ("Savings (20%)", monthly_income * 0.20)]

/-- `total_allocated = sum(budget.values())` (line 95). -/
def total_allocated (budget : List (String × ℚ)) : ℚ :=
  (budget.map Prod.snd).sum

/-- The remaining balance of line 97: income minus the allocated total. -/
def remaining (monthly_income : ℚ) (budget : List (String × ℚ)) : ℚ :=
  monthly_income - total_allocated budget

/-- C8. The 50/30/20 template at income 50000 yields exactly
Needs 25000, Wants 15000, Savings 10000; the allocated total equals the
income and the remaining balance is zero. -/
theorem budget_fifty_thirty_twenty :
    fiftyThirtyTwenty 50000 =
      [("Needs (50%)", 25000), ("Wants (30%)", 15000), ("Savings (20%)", 10000)] ∧
    total_allocated (fiftyThirtyTwenty 50000) = 50000 ∧
    remaining 50000 (fiftyThirtyTwenty 50000) = 0 := by
  refine ⟨?_, ?_, ?_⟩ <;>
    norm_num [fiftyThirtyTwenty, total_allocated, remaining]

/-! ## Quiz session engine (src/app.py lines 128-255) -/

/-- One quiz question of the static bank (lines 137-203). -/
structure QuizQuestion where
  question : String
  options : List String
  answer : String
  explanation : String
  deriving Repr, DecidableEq

/-- The static question bank of lines 137-203, in source order. -/
def questions : List QuizQuestion :=
  [⟨"What is a credit score primarily used for?",
    ["Tracking your income", "Approving loans and credit", "Paying taxes",
     "Budgeting monthly"],
    "Approving loans and credit",
    "A credit score helps banks determine your creditworthiness when applying for loans or credit cards."⟩,
   ⟨"Which one offers higher potential returns?",
    ["Fixed Deposit", "Mutual Fund"],
    "Mutual Fund",
    "Mutual funds invest in market-linked instruments, which can give higher returns than fixed deposits over time."⟩,
   ⟨"What is \x27inflation\x27?",
    ["Decrease in prices", "Rise in purchasing power",
     "Increase in prices over time", "Tax increase"],
    "Increase in prices over time",
    "Inflation is the general rise in the price of goods and services, reducing the value of money over time."⟩,
   ⟨"Which is a liability?",
    ["Loan", "Fixed Deposit", "Mutual Fund", "Salary"],
    "Loan",
    "A loan is money you owe — a liability on your personal balance sheet."⟩,
   ⟨"Which investment is considered the safest?",
    ["Stock Market", "Mutual Fund", "Fixed Deposit", "Crypto"],
    "Fixed Deposit",
    "FDs offer guaranteed returns and are not affected by market fluctuations."⟩,
   ⟨"What is the 50/30/20 rule?",
    ["50% income for rent, 30% for food, 20% for fun",
     "A loan repayment rule",
     "A budgeting rule: 50% needs, 30% wants, 20% savings",
     "A taxation rule"],
    "A budgeting rule: 50% needs, 30% wants, 20% savings",
    "The 50/30/20 rule is a popular budgeting guideline for managing personal finances."⟩,
   ⟨"What does SIP stand for?",
    ["Single Investment Plan", "Systematic Investment Plan",
     "Secure Investment Product", "Saving Increment Program"],
    "Systematic Investment Plan",
    "SIP allows you to invest a fixed amount regularly in mutual funds — harnessing compounding and consistency."⟩,
   ⟨"What’s the safest way to build an emergency fund?",
    ["In stocks", "In savings account or FD", "In crypto", "Via credit card"],
    "In savings account or FD",
    "Emergency funds should be accessible and safe — savings account or fixed deposits are ideal."⟩,
   ⟨"Which of these is an asset?",
    ["Credit card debt", "Student loan", "Salary", "Mutual fund investment"],
    "Mutual fund investment",
    "Assets are things you own that have value. Mutual funds are investments — and assets."⟩,
   ⟨"Why is diversification important in investing?",
    ["To focus returns", "To reduce tax", "To reduce risk", "To increase spending"],
    "To reduce risk",
    "Diversifying across assets reduces the impact if one investment performs poorly."⟩]

/-- One entry of the review log of line 213:
`(question, user_choice, answer, explanation)`. -/
abbrev AnswerEntry := String × String × String × String

/-- The per-visitor quiz state of lines 130-133:
`st.session_state.quiz_index`, `st.session_state.correct`,
`st.session_state.answers`. -/
structure QuizSession where
  quiz_index : ℕ
  correct : ℕ
  answers : List AnswerEntry
  deriving Repr, DecidableEq

/-- The freshly initialized session of lines 130-133: index 0, zero correct
answers, empty review log. -/
def initSession : QuizSession := ⟨0, 0, []⟩

/-- The Submit Answer handler of lines 212-225: append the review entry
for the current question, increment `correct` iff the choice equals the
stored answer, and advance `quiz_index` unless it already rests at the
final question. -/
def submitAnswer (s : QuizSession) (user_choice : String) : QuizSession :=
  match questions[s.quiz_index]? with
  | none => s
  | some q =>
    let s1 : QuizSession :=
      { s with
        answers := s.answers ++ [(q.question, user_choice, q.answer, q.explanation)]
        correct := if user_choice = q.answer then s.correct + 1 else s.correct }
    if s.quiz_index < questions.length - 1 then
      { s1 with quiz_index := s.quiz_index + 1 }
    else s1

/-- The Restart Quiz handler of lines 251-254: reset the three state keys;
nothing else is touched. -/
def restart (s : QuizSession) : QuizSession :=
  { s with quiz_index := 0, correct := 0, answers := [] }

/-- A full quiz run: fold the Submit Answer handler over a list of chosen
options, starting from the fresh session. -/
def runQuiz (ans : List String) : QuizSession :=
  ans.foldl submitAnswer initSession

/-- The completion condition: the completion branch of lines 224-249 runs
when an answer is submitted while `quiz_index` rests at the final index; in
the stored state this is visible as the index resting at the last question
with one review entry per question. -/
def Completed (s : QuizSession) : Prop :=
  s.quiz_index = questions.length - 1 ∧ s.answers.length = questions.length

instance (s : QuizSession) : Decidable (Completed s) :=
  inferInstanceAs (Decidable (_ ∧ _))

/-- The score of line 231: `int((correct / len(questions)) * 100)`; the
truncation of the non-negative quotient is its floor. -/
def score_pct (s : QuizSession) : ℤ :=
  ⌊((s.correct : ℚ) / (questions.length : ℚ)) * 100⌋

/-- The badge label of lines 232-239. -/
def level (p : ℤ) : String :=
  if 90 ≤ p then "💎 Money Master"
  else if 70 ≤ p then "🚀 Growing Financier"
  else if 50 ≤ p then "📘 Budget Beginner"
  else "🌱 Just Getting Started"

/-- The badge tier ordinal determined by the thresholds of lines 232-239:
0 for ≥ 90, 1 for ≥ 70, 2 for ≥ 50, 3 otherwise. -/
def badgeTier (p : ℤ) : ℕ :=
  if 90 ≤ p then 0 else if 70 ≤ p then 1 else if 50 ≤ p then 2 else 3

/-- The rerun of lines 205-206: `random.seed(42)` resets the generator to
the fixed seed, then the current question is read directly from the
`questions` literal; no random value is drawn between the seeding and the
selection, so the served question depends only on the session index, and
the generator state after the rerun is the freshly seeded one regardless
of what it was before. -/
def rerunServe (_rngState : ℕ) (s : QuizSession) : Option QuizQuestion × ℕ :=
  (questions[s.quiz_index]?, 42)

/-- The bank a rerun presents at position `i`: the script rebuilds the
`questions` literal of lines 137-203 on every rerun, independently of the
session state. -/
def bankView (_s : QuizSession) (i : ℕ) : Option QuizQuestion :=
  questions[i]?

/-- The number of submitted answers that match the stored answer of the
question at the corresponding bank position, starting from position `j`. -/
def matchesFrom : ℕ → List String → ℕ
  | _, [] => 0
  | j, a :: rest =>
    (match questions[j]? with
     | some q => if a = q.answer then 1 else 0
     | none => 0) + matchesFrom (j + 1) rest

/-- The review entries produced by submitting the given answers starting
from bank position `j`. -/
def entriesFrom : ℕ → List String → List AnswerEntry
  | _, [] => []
  | j, a :: rest =>
    (match questions[j]? with
     | some q => [(q.question, a, q.answer, q.explanation)]
     | none => []) ++ entriesFrom (j + 1) rest

lemma questions_length : questions.length = 10 := rfl

/-- Unfolding of the Submit Answer handler when the current index is in
range. -/
lemma submitAnswer_eq (s : QuizSession) (a : String) (q : QuizQuestion)
    (hq : questions[s.quiz_index]? = some q) :
    submitAnswer s a =
      { quiz_index := if s.quiz_index < questions.length - 1
                      then s.quiz_index + 1 else s.quiz_index
        correct := if a = q.answer then s.correct + 1 else s.correct
        answers := s.answers ++ [(q.question, a, q.answer, q.explanation)] } := by
  unfold submitAnswer
  rw [hq]
  by_cases hlt : s.quiz_index < questions.length - 1 <;> simp [hlt]

/-- `entriesFrom` produces one review entry per submitted answer while the
positions stay inside the bank. -/
lemma entriesFrom_length : ∀ (l : List String) (j : ℕ),
    j + l.length ≤ questions.length → (entriesFrom j l).length = l.length := by
  intro l
  induction l with
  | nil => intro j h; simp [entriesFrom]
  | cons a rest ih =>
      intro j h
      have hj : j < questions.length := by
        simp only [List.length_cons] at h; omega
      obtain ⟨q, hq⟩ : ∃ q, questions[j]? = some q := by
        rw [List.getElem?_eq_getElem hj]; exact ⟨_, rfl⟩
      have hrest := ih (j + 1) (by simp only [List.length_cons] at h; omega)
      simp [entriesFrom, hq, hrest]

/-- Characterization of a run of consecutive submissions that ends exactly
at the last question: the index comes to rest at the final position, the
score counts the matching answers, and the review log gains one entry per
answer. -/
lemma foldl_submitAnswer : ∀ (ans : List String) (s : QuizSession),
    s.quiz_index + ans.length = questions.length →
    (ans.foldl submitAnswer s).quiz_index
        = (if ans.isEmpty then s.quiz_index else questions.length - 1) ∧
    (ans.foldl submitAnswer s).correct
        = s.correct + matchesFrom s.quiz_index ans ∧
    (ans.foldl submitAnswer s).answers
        = s.answers ++ entriesFrom s.quiz_index ans := by
  intro ans
  induction ans with
  | nil =>
      intro s h
      simp [matchesFrom, entriesFrom]
  | cons a rest ih =>
      intro s h
      have hlen : s.quiz_index < questions.length := by
        simp only [List.length_cons] at h; omega
      obtain ⟨q, hq⟩ : ∃ q, questions[s.quiz_index]? = some q := by
        rw [List.getElem?_eq_getElem hlen]; exact ⟨_, rfl⟩
      rw [List.foldl_cons, submitAnswer_eq s a q hq]
      cases rest with
      | nil =>
          have hfin : ¬ s.quiz_index < questions.length - 1 := by
            simp only [List.length_cons, List.length_nil] at h; omega
          simp [hfin, matchesFrom, entriesFrom, hq]
          constructor
          · omega
          · split <;> omega
      | cons b t =>
          have hadv : s.quiz_index < questions.length - 1 := by
            simp only [List.length_cons] at h; omega
          rw [if_pos hadv]
          have h1 : (⟨s.quiz_index + 1,
              if a = q.answer then s.correct + 1 else s.correct,
              s.answers ++ [(q.question, a, q.answer, q.explanation)]⟩ :
                QuizSession).quiz_index + (b :: t).length
              = questions.length := by
            simp only [List.length_cons] at h ⊢
            omega
          obtain ⟨hi, hc, ha⟩ := ih _ h1
          refine ⟨?_, ?_, ?_⟩
          · rw [hi]; simp
          · rw [hc]
            simp only [matchesFrom, hq]
            split <;> omega
          · rw [ha]
            simp [entriesFrom, hq]

/-- C2. A full quiz run: submitting one answer per question to a fresh
session ends Completed, the score counts exactly the matching answers,
`score_pct` equals `round(100 * correct / N)`, and 7 matches out of the
10-question bank give score 70 and the second badge tier. -/
theorem quiz_full_run_scoring (ans : List String)
    (h : ans.length = questions.length) :
    Completed (runQuiz ans) ∧
    (runQuiz ans).correct = matchesFrom 0 ans ∧
    score_pct (runQuiz ans) =
      round ((100 * (matchesFrom 0 ans : ℚ)) / (questions.length : ℚ)) ∧
    (matchesFrom 0 ans = 7 →
      score_pct (runQuiz ans) = 70 ∧
      badgeTier (score_pct (runQuiz ans)) = 1 ∧
      level (score_pct (runQuiz ans)) = "🚀 Growing Financier") := by
  have hne : ans.isEmpty = false := by
    cases ans with
    | nil => rw [questions_length] at h; exact absurd h (by norm_num)
    | cons a t => rfl
  obtain ⟨hi, hc, ha⟩ :=
    foldl_submitAnswer ans initSession (by simpa [initSession] using h)
  rw [hne] at hi
  simp only [Bool.false_eq_true, if_false] at hi
  have hcorr : (runQuiz ans).correct = matchesFrom 0 ans := by
    simpa [initSession] using hc
  have hansl : (runQuiz ans).answers.length = questions.length := by
    rw [show (runQuiz ans).answers = entriesFrom 0 ans by
        simpa [initSession] using ha]
    rw [entriesFrom_length ans 0 (by omega), h]
  have hsc : score_pct (runQuiz ans) =
      round ((100 * (matchesFrom 0 ans : ℚ)) / (questions.length : ℚ)) := by
    rw [score_pct, hcorr, questions_length]
    have e1 : ((matchesFrom 0 ans : ℚ)) / ((10 : ℕ) : ℚ) * 100
        = ((10 * matchesFrom 0 ans : ℕ) : ℚ) := by push_cast; ring
    have e2 : (100 * (matchesFrom 0 ans : ℚ)) / ((10 : ℕ) : ℚ)
        = ((10 * matchesFrom 0 ans : ℕ) : ℚ) := by push_cast; ring
    rw [e1, e2, Int.floor_natCast, round_natCast]
  refine ⟨⟨hi, hansl⟩, hcorr, hsc, ?_⟩
  intro h7
  have hval : score_pct (runQuiz ans) = 70 := by
    rw [hsc, h7, questions_length]
    norm_num
  refine ⟨hval, ?_, ?_⟩
  · rw [hval]; norm_num [badgeTier]
  · rw [hval]; norm_num [level]

/-- A concrete full run: the correct option for the first seven questions,
a wrong option for the last three. -/
def ansEx : List String :=
  ["Approving loans and credit", "Mutual Fund", "Increase in prices over time",
   "Loan", "Fixed Deposit",
   "A budgeting rule: 50% needs, 30% wants, 20% savings",
   "Systematic Investment Plan",
   "In stocks", "Salary", "To focus returns"]

/-- Closed-input instantiation of `quiz_full_run_scoring` on `ansEx`:
7 of 10 answers match, the run completes with score 70 and the
second-tier badge. -/
theorem quiz_full_run_scoring_witness :
    Completed (runQuiz ansEx) ∧
    score_pct (runQuiz ansEx) = 70 ∧
    badgeTier (score_pct (runQuiz ansEx)) = 1 ∧
    level (score_pct (runQuiz ansEx)) = "🚀 Growing Financier" := by
  have h7 : matchesFrom 0 ansEx = 7 := by decide
  obtain ⟨hcomp, _, _, himp⟩ := quiz_full_run_scoring ansEx (by decide)
  obtain ⟨hv, hb, hl⟩ := himp h7
  exact ⟨hcomp, hv, hb, hl⟩

/-- C3 counterexample. The Submit Answer handler has no completion guard:
on a session that has just completed a full run (index resting at the last
question, one review entry per question), submitting again appends another
review entry and increments the score when the choice matches — it does not
leave the state unchanged, and nothing is signalled. -/
theorem quiz_double_submit_cex :
    Completed (runQuiz ansEx) ∧
    (submitAnswer (runQuiz ansEx) "To reduce risk").correct =
      (runQuiz ansEx).correct + 1 ∧
    (submitAnswer (runQuiz ansEx) "To reduce risk").answers ≠
      (runQuiz ansEx).answers := by
  refine ⟨by decide, by decide, ?_⟩
  intro hcontra
  have hlen := congrArg List.length hcontra
  revert hlen
  decide

/-- C3 amended. Submitting a second time at the same final index — in
particular on a Completed session — is not rejected: the handler appends
another entry to the review log, increments the score when the choice
matches, and leaves the index in place; no InvalidState signal exists in
the code. -/
theorem quiz_double_submit_appends (s : QuizSession) (a : String)
    (h : s.quiz_index = questions.length - 1) :
    ∃ q : QuizQuestion, questions[s.quiz_index]? = some q ∧
      submitAnswer s a =
        { quiz_index := s.quiz_index
          correct := if a = q.answer then s.correct + 1 else s.correct
          answers := s.answers ++ [(q.question, a, q.answer, q.explanation)] } := by
  have hlt : s.quiz_index < questions.length := by
    rw [h, questions_length]; norm_num
  obtain ⟨q, hq⟩ : ∃ q, questions[s.quiz_index]? = some q := by
    rw [List.getElem?_eq_getElem hlt]; exact ⟨_, rfl⟩
  refine ⟨q, hq, ?_⟩
  rw [submitAnswer_eq s a q hq]
  have hnot : ¬ s.quiz_index < questions.length - 1 := by omega
  rw [if_neg hnot]

/-- Closed-input instantiation of `quiz_double_submit_appends` at the
session resting at the final index with an empty log. -/
theorem quiz_double_submit_appends_witness :
    ∃ q : QuizQuestion,
      questions[(QuizSession.mk 9 0 []).quiz_index]? = some q ∧
      submitAnswer ⟨9, 0, []⟩ "To reduce risk" =
        { quiz_index := (QuizSession.mk 9 0 []).quiz_index
          correct := if "To reduce risk" = q.answer
                     then (QuizSession.mk 9 0 []).correct + 1
                     else (QuizSession.mk 9 0 []).correct
          answers := (QuizSession.mk 9 0 []).answers ++
            [(q.question, "To reduce risk", q.answer, q.explanation)] } :=
  quiz_double_submit_appends ⟨9, 0, []⟩ "To reduce risk" rfl

/-- C9. The Restart handler resets the index to 0, the score to 0, and the
review log to empty, from any state; the bank a rerun presents at each
position is unchanged by the restart (same questions, same order), and the
served question after restart is the bank's first. -/
theorem quiz_restart_resets (s : QuizSession) :
    (restart s).quiz_index = 0 ∧
    (restart s).correct = 0 ∧
    (restart s).answers = [] ∧
    (∀ rng : ℕ, (rerunServe rng (restart s)).1 = questions[(0:ℕ)]?) ∧
    (∀ i : ℕ, bankView (restart s) i = bankView s i) :=
  ⟨rfl, rfl, rfl, fun _ => rfl, fun _ => rfl⟩

/-- C10. The question order is deterministic and identical in every
session: the generator is re-seeded on each rerun and never sampled before
the selection, so two reruns with arbitrary (even different) incoming
generator states and sessions at the same index serve the same question and
leave the generator in the same state, and the bank presented is the same
at every position for any two sessions. -/
theorem quiz_question_order_deterministic (rng rng2 : ℕ)
    (s t : QuizSession) (h : s.quiz_index = t.quiz_index) :
    rerunServe rng s = rerunServe rng2 t ∧
    (∀ i : ℕ, bankView s i = bankView t i) := by
  constructor
  · unfold rerunServe
    rw [h]
  · intro i
    rfl

/-- Closed-input instantiation of `quiz_question_order_deterministic`:
two sessions with different scores, logs and incoming generator states,
both at index 3. -/
theorem quiz_question_order_deterministic_witness :
    rerunServe 0 ⟨3, 0, []⟩ = rerunServe 99 ⟨3, 2, [("q", "a", "b", "e")]⟩ ∧
    (∀ i : ℕ, bankView ⟨3, 0, []⟩ i = bankView ⟨3, 2, [("q", "a", "b", "e")]⟩ i) :=
  quiz_question_order_deterministic 0 99 ⟨3, 0, []⟩
    ⟨3, 2, [("q", "a", "b", "e")]⟩ rfl

end FinancialBuddy
